import Mathlib

set_option maxRecDepth 8000

set_option allowUnsafeReducibility true in
attribute [semireducible] Rat.add Rat.sub Rat.mul Rat.inv

/-!
Verification of `transform_projections.py`, a single-file pipeline that
parses currency/percent cells of a projections table, computes an
Excel-style inclusive percentile rank with configurable duplicate
tie-breaking, derives leverage metrics, and formats the results.

The embedding idealises IEEE doubles as `PyFloat`: a finite value carried
as an exact rational, the two infinities, and NaN (pandas uses NaN for a
missing cell).  All arithmetic the pipeline performs on parsed cells is
exact on the inputs of interest, so the rational idealisation is faithful
except for binary representation error, which no claim depends on.
-/

/-- Model of a Python/numpy double: a finite value (idealised as an exact
rational), positive or negative infinity, or NaN.  pandas represents a
missing cell as NaN. -/
inductive PyFloat where
  | val (q : ℚ)
  | inf
  | ninf
  | nan
deriving DecidableEq, Repr

/-- numpy elementwise `==` on doubles: NaN compares unequal to everything,
itself included; each infinity compares equal to itself only; finite values
compare as numbers.  This is the comparison `np.where(sorted_vals == x)`
performs in `percentrank_inc`. -/
def pyEq : PyFloat → PyFloat → Bool
  | .val a, .val b => a == b
  | .inf, .inf => true
  | .ninf, .ninf => true
  | _, _ => false

/-- The total order `np.sort` sorts doubles by: `-inf`, then finite values
ascending, then `+inf`, with NaN placed at the end. -/
def pyLeB : PyFloat → PyFloat → Bool
  | _, .nan => true
  | .nan, _ => false
  | .ninf, _ => true
  | _, .ninf => false
  | .val a, .val b => a ≤ b
  | .val _, .inf => true
  | .inf, .val _ => false
  | .inf, .inf => true

/-- Propositional form of the `np.sort` order. -/
def pyLe (x y : PyFloat) : Prop := pyLeB x y = true

instance : DecidableRel pyLe := fun x y =>
  inferInstanceAs (Decidable (pyLeB x y = true))

instance : IsTotal PyFloat pyLe := by
  constructor
  intro a b
  cases a <;> cases b <;> simp [pyLe, pyLeB] <;> exact le_total _ _

instance : IsTrans PyFloat pyLe := by
  constructor
  intro a b c hab hbc
  cases a <;> cases b <;> cases c <;>
    simp_all [pyLe, pyLeB] <;> exact le_trans hab hbc

instance : IsAntisymm PyFloat pyLe := by
  constructor
  intro a b hab hba
  cases a <;> cases b <;> simp_all [pyLe, pyLeB]
  exact le_antisymm hab hba

/-- `np.sort` on a vector of doubles: the ascending reordering under
`pyLe`.  `np.sort`'s output is the unique `pyLe`-sorted permutation of its
input (`pyLe` is antisymmetric), which `List.insertionSort` computes. -/
def npSort (values : List PyFloat) : List PyFloat :=
  List.insertionSort pyLe values

/-- `np.where(sorted_vals == x)[0]` inside `percentrank_inc`: the list of
positions of `sorted_vals` whose entry compares `==`-equal to `x`, in
ascending order. -/
def whereIdxs (sorted_vals : List PyFloat) (x : PyFloat) : List ℕ :=
  (List.range sorted_vals.length).filter (fun i => pyEq (sorted_vals.getD i .nan) x)

/-- The loop body of `percentrank_inc` for one value `x`: take the first
(`use_first`) or last matching sorted position and divide by `n - 1`; the
fallback when no position matches is `0.5`. -/
def rankOfVal (sorted_vals : List PyFloat) (use_first : Bool) (x : PyFloat) : ℚ :=
  match whereIdxs sorted_vals x with
  | [] => (1 : ℚ) / 2
  | i :: rest =>
      (((if use_first then i else (i :: rest).getLast (List.cons_ne_nil i rest)) : ℕ) : ℚ)
        / ((sorted_vals.length : ℚ) - 1)

/-- `percentrank_inc(values, use_first)` from the source: approximate
Excel PERCENTRANK.INC.  Sorts the values ascending (`n` is the sorted
length, which equals the input length) and ranks every input value with
`rankOfVal`.  When `n ≤ 1` the result is `np.zeros_like(values)`. -/
def percentrank_inc (values : List PyFloat) (use_first : Bool) : List ℚ :=
  if (npSort values).length ≤ 1 then values.map (fun _ => 0)
  else values.map (rankOfVal (npSort values) use_first)

/-- The ascending sort of §4.2 ("sort values ascending"), over finite
values: the spec describes the ranker on plain numbers. -/
def sortQ (l : List ℚ) : List ℚ := List.insertionSort (· ≤ ·) l

/-- §4.2's "first matching 0-indexed position" of `x` in the sorted
sequence `s`: the index of the first occurrence. -/
def specFirstPos (s : List ℚ) (x : ℚ) : ℕ := List.indexOf x s

/-- §4.2's "last matching 0-indexed position" of `x` in `s`: the first
occurrence in the reversed sequence, reflected back. -/
def specLastPos (s : List ℚ) (x : ℚ) : ℕ :=
  s.length - 1 - List.indexOf x s.reverse

/-- `percentileRank` as §4.2 words the algorithm: sort ascending, rank each
input value by its first (FIRST) or last (LAST) matching sorted position
divided by `n - 1`.  Spec-side definition for the refinement claim C1;
`percentrank_inc` above is the code-side one. -/
def specPercentileRank (l : List ℚ) (useFirst : Bool) : List ℚ :=
  l.map (fun x =>
    (((if useFirst then specFirstPos (sortQ l) x else specLastPos (sortQ l) x) : ℕ) : ℚ)
      / ((l.length : ℚ) - 1))

/-- Python `str.strip()`: remove leading and trailing whitespace. -/
def pyStrip (s : String) : String :=
  ⟨((s.data.dropWhile Char.isWhitespace).reverse.dropWhile Char.isWhitespace).reverse⟩

/-- Python `str.replace(c, "")` for a one-character pattern: drop every
occurrence of that character. -/
def removeAll (s : String) (c : Char) : String :=
  ⟨s.data.filter (fun d => d != c)⟩

/-- Value of a most-significant-first decimal digit string. -/
def digitsVal (cs : List Char) : ℕ :=
  cs.foldl (fun n c => 10 * n + (c.toNat - 48)) 0

/-- Parse an unsigned decimal mantissa — `digits`, `digits.digits`,
`digits.` or `.digits` — as an exact rational. -/
def parseMantissa (cs : List Char) : Option ℚ :=
  let ip := cs.takeWhile (fun d => d != '.')
  match cs.dropWhile (fun d => d != '.') with
  | [] => if !ip.isEmpty && ip.all Char.isDigit then some (digitsVal ip) else none
  | _ :: fp =>
      if ip.all Char.isDigit && fp.all Char.isDigit && !(ip.isEmpty && fp.isEmpty) then
        some ((digitsVal ip : ℚ) + (digitsVal fp : ℚ) / (10 : ℚ) ^ fp.length)
      else none

/-- Strip an optional leading sign; `true` means negative. -/
def splitSign : List Char → Bool × List Char
  | '-' :: cs => (true, cs)
  | '+' :: cs => (false, cs)
  | cs => (false, cs)

/-- Model of Python `float(s)`: optional surrounding whitespace, optional
sign, decimal mantissa, optional `e`/`E` exponent, `none` when the text is
not a number.  The special literals (`inf`, `nan`, `_` digit separators)
`float` also accepts have no rational value and are not modelled; no claim
involves them. -/
def parseFloat? (s : String) : Option ℚ :=
  let cs := (pyStrip s).data
  let sgn := splitSign cs
  let body := sgn.2
  let mant := body.takeWhile (fun d => d != 'e' && d != 'E')
  let res :=
    match body.dropWhile (fun d => d != 'e' && d != 'E') with
    | [] => parseMantissa mant
    | _ :: ex =>
        let esgn := splitSign ex
        if !esgn.2.isEmpty && esgn.2.all Char.isDigit then
          (parseMantissa mant).map (fun m =>
            if esgn.1 then m / (10 : ℚ) ^ digitsVal esgn.2
            else m * (10 : ℚ) ^ digitsVal esgn.2)
        else none
  res.map (fun m => if sgn.1 then -m else m)

/-- `parse_salary` from the source: a cell is `Option String` (`none` is a
missing/NaN cell, `pd.isna`).  Strip whitespace, drop `$` and `,`, parse
the rest as a float; NaN when missing or unparseable. -/
def parse_salary (s : Option String) : PyFloat :=
  match s with
  | none => .nan
  | some s0 =>
      match parseFloat? (removeAll (removeAll (pyStrip s0) '$') ',') with
      | some q => .val q
      | none => .nan

/-- `parse_percent_str` from the source: `0.0` for a missing cell;
otherwise strip whitespace and drop `%`; `0.0` when the remainder is empty
or unparseable, else its literal numeric value. -/
def parse_percent_str (s : Option String) : ℚ :=
  match s with
  | none => 0
  | some s0 =>
      let s1 := removeAll (pyStrip s0) '%'
      if s1 = "" then 0
      else
        match parseFloat? s1 with
        | some q => q
        | none => 0

/-- Round half to even to an integer: the rounding `np.round` and Python
float formatting perform, idealised to exact decimals. -/
def roundHalfEven (x : ℚ) : ℤ :=
  if x - ⌊x⌋ < 1 / 2 then ⌊x⌋
  else if 1 / 2 < x - ⌊x⌋ then ⌊x⌋ + 1
  else if ⌊x⌋ % 2 = 0 then ⌊x⌋ else ⌊x⌋ + 1

/-- `np.round(x, d)` / `Series.round(d)`: round to `d` decimal places,
half to even. -/
def npRound (d : ℕ) (x : ℚ) : ℚ :=
  (roundHalfEven (x * 10 ^ d) : ℚ) / 10 ^ d

/-- IEEE multiplication on doubles (modelled): NaN propagates, zero times
an infinity is NaN, signs follow the usual rule. -/
def pyMul : PyFloat → PyFloat → PyFloat
  | .nan, _ => .nan
  | _, .nan => .nan
  | .val a, .val b => .val (a * b)
  | .val a, .inf => if a = 0 then .nan else if 0 < a then .inf else .ninf
  | .inf, .val b => if b = 0 then .nan else if 0 < b then .inf else .ninf
  | .val a, .ninf => if a = 0 then .nan else if 0 < a then .ninf else .inf
  | .ninf, .val b => if b = 0 then .nan else if 0 < b then .ninf else .inf
  | .inf, .inf => .inf
  | .inf, .ninf => .ninf
  | .ninf, .inf => .ninf
  | .ninf, .ninf => .inf

/-- IEEE division on doubles (modelled): NaN propagates; a nonzero finite
value over zero is ±inf by the numerator's sign and 0/0 is NaN (numpy
emits a runtime warning but produces these values); finite over ±inf is 0;
±inf over finite keeps the sign rule; ±inf over ±inf is NaN. -/
def pyDiv : PyFloat → PyFloat → PyFloat
  | .nan, _ => .nan
  | _, .nan => .nan
  | .val a, .val b =>
      if b = 0 then (if a = 0 then .nan else if 0 < a then .inf else .ninf)
      else .val (a / b)
  | .val _, .inf => .val 0
  | .val _, .ninf => .val 0
  | .inf, .val b => if 0 ≤ b then .inf else .ninf
  | .ninf, .val b => if 0 ≤ b then .ninf else .inf
  | .inf, .inf => .nan
  | .inf, .ninf => .nan
  | .ninf, .inf => .nan
  | .ninf, .ninf => .nan

/-- `pd.notna`: every double except NaN is present — infinities count as
present. -/
def notna : PyFloat → Bool
  | .nan => false
  | _ => true

/-- Python `int(x)` on a finite double: truncation toward zero. -/
def pyTruncInt (x : ℚ) : ℤ := if 0 ≤ x then ⌊x⌋ else -⌊-x⌋

/-- Left-pad a digit string with zeros to width `w`. -/
def padZeros (w : ℕ) (s : String) : String :=
  ⟨List.replicate (w - s.data.length) '0' ++ s.data⟩

/-- Python `f"{x:.df}"` on a finite double, idealised to exact decimal
rounding (half to even): optional sign, integer part, then exactly `d`
fractional digits (no decimal point when `d = 0`). -/
def fmtFixed (d : ℕ) (x : ℚ) : String :=
  let n := roundHalfEven (x * 10 ^ d)
  let sgn := if n < 0 then "-" else ""
  let m := n.natAbs
  if d = 0 then sgn ++ toString m
  else sgn ++ toString (m / 10 ^ d) ++ "." ++ padZeros d (toString (m % 10 ^ d))

/-- `f"{x:.df}"` over all doubles: infinities print `inf`/`-inf`, NaN
prints `nan`. -/
def pyFmtFixed (d : ℕ) : PyFloat → String
  | .val q => fmtFixed d q
  | .inf => "inf"
  | .ninf => "-inf"
  | .nan => "nan"

/-- Commas every three digits, applied to a reversed digit list. -/
def commaGroup : List Char → List Char
  | a :: b :: c :: d :: rest => a :: b :: c :: ',' :: commaGroup (d :: rest)
  | l => l

/-- Python `f"{x:,.2f}"` on a finite double: two decimals, half to even,
thousands separators in the integer part. -/
def fmtComma2 (x : ℚ) : String :=
  let n := roundHalfEven (x * 100)
  let sgn := if n < 0 then "-" else ""
  let m := n.natAbs
  sgn ++ (⟨(commaGroup (toString (m / 100)).data.reverse).reverse⟩ : String)
    ++ "." ++ padZeros 2 (toString (m % 100))

/-- `f"{x:,.2f}"` over all doubles. -/
def pyFmtComma2 : PyFloat → String
  | .val q => fmtComma2 q
  | .inf => "inf"
  | .ninf => "-inf"
  | .nan => "nan"

/-- `df["salary_num"] = df["DK Salary"].apply(parse_salary)`. -/
def salary_num (dkSalary : List (Option String)) : List PyFloat :=
  dkSalary.map parse_salary

/-- `large_field_pct = df["Large Field"].apply(parse_percent_str)`. -/
def large_field_pct (largeField : List (Option String)) : List ℚ :=
  largeField.map parse_percent_str

/-- `df["OWN_FRAC"] = (large_field_pct / 100.0).round(2)`. -/
def OWN_FRAC (pct : List ℚ) : List ℚ :=
  pct.map (fun p => npRound 2 (p / 100))

/-- `df["LEVERAGE_SCORE"] = df["DK Ceiling"] * (1.0 - (large_field_pct / 100.0))`,
using the unrounded fraction. -/
def LEVERAGE_SCORE (ceiling : List PyFloat) (pct : List ℚ) : List PyFloat :=
  List.zipWith (fun c p => pyMul c (.val (1 - p / 100))) ceiling pct

/-- `df["VALUE_PER_1k_raw"] = df["DK Proj"] / (df["salary_num"] / 1000.0)`. -/
def VALUE_PER_1k_raw (proj salary : List PyFloat) : List PyFloat :=
  List.zipWith (fun p s => pyDiv p (pyDiv s (.val 1000))) proj salary

/-- `df["CEILING_PCT_RANK"] = (ceiling_rank * 100.0).round(2)` where
`ceiling_rank = percentrank_inc(ceiling_vals, use_first=False)`. -/
def CEILING_PCT_RANK (ceiling : List PyFloat) : List ℚ :=
  (percentrank_inc ceiling false).map (fun r => npRound 2 (r * 100))

/-- `df["OWNERSHIP_PCT_RANK"] = (ownership_rank * 100.0).round(0)` where
`ownership_rank = percentrank_inc(large_field_pct.values, use_first=True)`. -/
def OWNERSHIP_PCT_RANK (pct : List ℚ) : List ℚ :=
  (percentrank_inc (pct.map PyFloat.val) true).map (fun r => npRound 0 (r * 100))

/-- `df["leverage_delta_raw"] = df["CEILING_PCT_RANK"] - df["OWNERSHIP_PCT_RANK"]`:
the difference of the two already-rounded percent-rank columns. -/
def leverage_delta_raw (ceilRank ownRank : List ℚ) : List ℚ :=
  List.zipWith (fun a b => a - b) ceilRank ownRank

/-- `df["DK Salary_out"]`: `f"${x:,.2f}"` when the value is present, else
the empty string. -/
def DK_Salary_out (salary : List PyFloat) : List String :=
  salary.map (fun x => if notna x then "$" ++ pyFmtComma2 x else "")

/-- `df["VALUE_PER_1k"]`: `f"${x:.2f}"` when the value is present, else
the empty string. -/
def VALUE_PER_1k (raw : List PyFloat) : List String :=
  raw.map (fun x => if notna x then "$" ++ pyFmtFixed 2 x else "")

/-- `df["CEILING_PCT_RANK_out"]`: `f"{x:.2f}%"`. -/
def CEILING_PCT_RANK_out (r : List ℚ) : List String :=
  r.map (fun x => fmtFixed 2 x ++ "%")

/-- `df["OWNERSHIP_PCT_RANK_out"]`: `f"{int(x)}%"`. -/
def OWNERSHIP_PCT_RANK_out (r : List ℚ) : List String :=
  r.map (fun x => toString (pyTruncInt x) ++ "%")

/-- `df["leverage_delta_out"]`: `f"{x:.1f}%"`. -/
def leverage_delta_out (r : List ℚ) : List String :=
  r.map (fun x => fmtFixed 1 x ++ "%")

/-- The input table: each §6 column either present (one cell per row) or
absent.  Currency/percent columns hold string cells (`Option String`,
`none` = NA); numeric columns hold doubles; identity columns are opaque
strings. -/
structure RawTable where
  «Player» : Option (List String)
  «DK Pos» : Option (List String)
  «Team» : Option (List String)
  «Opp» : Option (List String)
  «DK Salary» : Option (List (Option String))
  «DK Proj» : Option (List PyFloat)
  «DK Value» : Option (List PyFloat)
  «Small Field» : Option (List (Option String))
  «Large Field» : Option (List (Option String))
  «DK Floor» : Option (List PyFloat)
  «DK Ceiling» : Option (List PyFloat)
  «id» : Option (List String)

/-- The output table, columns in the fixed `out_cols` order, with the
formatted columns renamed back to their input names. -/
structure OutTable where
  «Player» : List String
  «DK Pos» : List String
  «Team» : List String
  «Opp» : List String
  «DK Salary» : List String
  «DK Proj» : List PyFloat
  «DK Value» : List PyFloat
  OWN_FRAC : List ℚ
  «DK Floor» : List PyFloat
  «DK Ceiling» : List PyFloat
  LEVERAGE_SCORE : List PyFloat
  VALUE_PER_1k : List String
  CEILING_PCT_RANK : List String
  OWNERSHIP_PCT_RANK : List String
  leverage_delta : List String
  «id» : List String

/-- `df[name]` on a possibly-absent column: a missing required column is a
pandas `KeyError`, which aborts the run. -/
def getCol {α : Type} (c : Option α) (nm : String) : Except String α :=
  match c with
  | some v => .ok v
  | none => .error ("KeyError: " ++ nm)

/-- `transform` without the CSV I/O: reads each accessed column (a missing
one raises, modelled as `Except.error`, and no output is produced),
computes the derived columns, and assembles the output table in the fixed
column order.  Accesses happen in source order: `DK Salary`, `Large
Field`, `DK Ceiling`, `DK Proj` during computation, then the `df[out_cols]`
selection demands the passthrough columns.  `Small Field` appears only in
the rename map, which ignores missing labels, so it is never required. -/
def transformE (t : RawTable) : Except String OutTable := do
  let dkSalaryCol ← getCol t.«DK Salary» "DK Salary"
  let largeFieldCol ← getCol t.«Large Field» "Large Field"
  let ceilingCol ← getCol t.«DK Ceiling» "DK Ceiling"
  let projCol ← getCol t.«DK Proj» "DK Proj"
  let playerCol ← getCol t.«Player» "Player"
  let posCol ← getCol t.«DK Pos» "DK Pos"
  let teamCol ← getCol t.«Team» "Team"
  let oppCol ← getCol t.«Opp» "Opp"
  let valueCol ← getCol t.«DK Value» "DK Value"
  let floorCol ← getCol t.«DK Floor» "DK Floor"
  let idCol ← getCol t.«id» "id"
  let sal := salary_num dkSalaryCol
  let pct := large_field_pct largeFieldCol
  .ok
    { «Player» := playerCol
      «DK Pos» := posCol
      «Team» := teamCol
      «Opp» := oppCol
      «DK Salary» := DK_Salary_out sal
      «DK Proj» := projCol
      «DK Value» := valueCol
      OWN_FRAC := OWN_FRAC pct
      «DK Floor» := floorCol
      «DK Ceiling» := ceilingCol
      LEVERAGE_SCORE := LEVERAGE_SCORE ceilingCol pct
      VALUE_PER_1k := VALUE_PER_1k (VALUE_PER_1k_raw projCol sal)
      CEILING_PCT_RANK := CEILING_PCT_RANK_out (CEILING_PCT_RANK ceilingCol)
      OWNERSHIP_PCT_RANK := OWNERSHIP_PCT_RANK_out (OWNERSHIP_PCT_RANK pct)
      leverage_delta :=
        leverage_delta_out
          (leverage_delta_raw (CEILING_PCT_RANK ceilingCol) (OWNERSHIP_PCT_RANK pct))
      «id» := idCol }

/-- The C2 input table: two rows with ceilings `[10, 20]` and Large Field
ownership strings both `"50%"` (the other cells are arbitrary). -/
def twoRowTable : RawTable where
  «Player» := some ["A", "B"]
  «DK Pos» := some ["P", "P"]
  «Team» := some ["T1", "T2"]
  «Opp» := some ["T2", "T1"]
  «DK Salary» := some [some "$5,000", some "$6,000"]
  «DK Proj» := some [.val 10, .val 12]
  «DK Value» := some [.val 3, .val 4]
  «Small Field» := some [some "40%", some "40%"]
  «Large Field» := some [some "50%", some "50%"]
  «DK Floor» := some [.val 5, .val 6]
  «DK Ceiling» := some [.val 10, .val 20]
  «id» := some ["1", "2"]

/-- The C9 counterexample table: identical to `twoRowTable` except the
`Small Field` column — required by §6 — is absent. -/
def noSmallFieldTable : RawTable where
  «Player» := some ["A", "B"]
  «DK Pos» := some ["P", "P"]
  «Team» := some ["T1", "T2"]
  «Opp» := some ["T2", "T1"]
  «DK Salary» := some [some "$5,000", some "$6,000"]
  «DK Proj» := some [.val 10, .val 12]
  «DK Value» := some [.val 3, .val 4]
  «Small Field» := none
  «Large Field» := some [some "50%", some "50%"]
  «DK Floor» := some [.val 5, .val 6]
  «DK Ceiling» := some [.val 10, .val 20]
  «id» := some ["1", "2"]

/-- A table missing the `DK Salary` column (and nothing else). -/
def noSalaryTable : RawTable :=
  { twoRowTable with «DK Salary» := none }

theorem length_npSort (values : List PyFloat) : (npSort values).length = values.length :=
  (List.perm_insertionSort pyLe values).length_eq

theorem length_sortQ (l : List ℚ) : (sortQ l).length = l.length :=
  (List.perm_insertionSort (α := ℚ) (· ≤ ·) l).length_eq

theorem mem_sortQ (l : List ℚ) (x : ℚ) : x ∈ sortQ l ↔ x ∈ l :=
  (List.perm_insertionSort (α := ℚ) (· ≤ ·) l).mem_iff

/-- Sorting commutes with the injection of exact rationals into doubles:
`np.sort` on a NaN-free, finite-valued vector is the plain ascending sort. -/
theorem npSort_map_val (l : List ℚ) :
    npSort (l.map PyFloat.val) = (sortQ l).map PyFloat.val := by
  apply List.eq_of_perm_of_sorted (r := pyLe)
  · exact (List.perm_insertionSort pyLe _).trans
      (((List.perm_insertionSort (α := ℚ) (· ≤ ·) l).map PyFloat.val).symm)
  · exact List.sorted_insertionSort pyLe _
  · exact List.Pairwise.map PyFloat.val
      (fun a b hab => by simp [pyLe, pyLeB, hab])
      (List.sorted_insertionSort (α := ℚ) (· ≤ ·) l)

theorem head_le_of_pairwise_lt (L : List ℕ) (hpw : List.Pairwise (· < ·) L)
    (hne : L ≠ []) (j : ℕ) (hj : j ∈ L) : L.head hne ≤ j := by
  cases L with
  | nil => exact absurd rfl hne
  | cons a t =>
    rcases List.mem_cons.mp hj with h1 | h2
    · simp [List.head_cons, h1]
    · exact le_of_lt (List.rel_of_pairwise_cons hpw h2)

theorem le_getLast_of_pairwise_lt :
    ∀ (L : List ℕ), List.Pairwise (· < ·) L →
      ∀ (hne : L ≠ []) (j : ℕ), j ∈ L → j ≤ L.getLast hne := by
  intro L
  induction L with
  | nil => intro _ hne; exact absurd rfl hne
  | cons a t ih =>
    intro hpw hne j hj
    cases t with
    | nil =>
      have hj' : j = a := by simpa using hj
      simp [hj', List.getLast_singleton]
    | cons b u =>
      rw [List.getLast_cons (List.cons_ne_nil b u)]
      rcases List.mem_cons.mp hj with h1 | h2
      · subst h1
        exact le_of_lt (List.rel_of_pairwise_cons hpw
          (List.getLast_mem (List.cons_ne_nil b u)))
      · exact ih hpw.of_cons (List.cons_ne_nil b u) j h2

theorem pairwise_filter_range (n : ℕ) (p : ℕ → Bool) :
    List.Pairwise (· < ·) ((List.range n).filter p) :=
  List.Pairwise.filter p (List.sorted_lt_range n)

theorem mem_filter_range (n : ℕ) (p : ℕ → Bool) (j : ℕ) :
    j ∈ (List.range n).filter p ↔ j < n ∧ p j = true := by
  simp [List.mem_filter, List.mem_range]

/-- First occurrence of `x` in `s` characterised: the element there is `x`
and no earlier element is. -/
theorem indexOf_first_charac (s : List ℚ) (x : ℚ) (hx : x ∈ s) :
    s.getD (List.indexOf x s) 0 = x ∧
      ∀ j, j < List.indexOf x s → s.getD j 0 ≠ x := by
  induction s with
  | nil => cases hx
  | cons a t ih =>
    by_cases hax : a = x
    · subst hax
      rw [List.indexOf_cons_self]
      exact ⟨List.getD_cons_zero, fun j hj => absurd hj (Nat.not_lt_zero j)⟩
    · have hxt : x ∈ t := by
        rcases List.mem_cons.mp hx with h | h
        · exact absurd h.symm hax
        · exact h
      rw [List.indexOf_cons_ne t hax]
      obtain ⟨h1, h2⟩ := ih hxt
      refine ⟨by simpa [List.getD_cons_succ] using h1, ?_⟩
      intro j hj
      cases j with
      | zero =>
        simp only [List.getD_cons_zero]
        exact hax
      | succ k =>
        rw [List.getD_cons_succ]
        exact h2 k (Nat.succ_lt_succ_iff.mp hj)

theorem getD_reverse_q (s : List ℚ) (i : ℕ) (hi : i < s.length) :
    s.reverse.getD i 0 = s.getD (s.length - 1 - i) 0 := by
  rw [List.getD_eq_getElem _ _ (by simpa [List.length_reverse] using hi),
      List.getD_eq_getElem _ _ (by omega)]
  exact List.getElem_reverse _

/-- `specLastPos` characterised: a matching position, and the greatest one. -/
theorem specLastPos_charac (s : List ℚ) (x : ℚ) (hx : x ∈ s) :
    specLastPos s x < s.length ∧ s.getD (specLastPos s x) 0 = x ∧
      ∀ j, j < s.length → s.getD j 0 = x → j ≤ specLastPos s x := by
  have hxr : x ∈ s.reverse := List.mem_reverse.mpr hx
  have hpos : 0 < s.length := List.length_pos.mpr (List.ne_nil_of_mem hx)
  have hlt : List.indexOf x s.reverse < s.length := by
    have := List.indexOf_lt_length.mpr hxr
    simpa [List.length_reverse] using this
  obtain ⟨h1, h2⟩ := indexOf_first_charac s.reverse x hxr
  refine ⟨by unfold specLastPos; omega, ?_, ?_⟩
  · rw [specLastPos, ← getD_reverse_q s _ hlt]
    exact h1
  · intro j hj hjx
    have hrev : s.reverse.getD (s.length - 1 - j) 0 = x := by
      rw [getD_reverse_q s _ (by omega)]
      have he : s.length - 1 - (s.length - 1 - j) = j := by omega
      rw [he]
      exact hjx
    have : ¬ (s.length - 1 - j < List.indexOf x s.reverse) :=
      fun hcon => h2 _ hcon hrev
    unfold specLastPos
    omega

/-- The first position `np.where` finds is the index of first occurrence. -/
theorem filter_range_head (s : List ℚ) (x : ℚ) (hx : x ∈ s) :
    ((List.range s.length).filter (fun i => s.getD i 0 == x)).head? =
      some (specFirstPos s x) := by
  obtain ⟨h1, h2⟩ := indexOf_first_charac s x hx
  set F := (List.range s.length).filter (fun i => s.getD i 0 == x) with hFdef
  have hmem : List.indexOf x s ∈ F := by
    rw [hFdef]
    exact (mem_filter_range _ _ _).mpr
      ⟨List.indexOf_lt_length.mpr hx, by simp only [beq_iff_eq]; exact h1⟩
  have hne := List.ne_nil_of_mem hmem
  rw [List.head?_eq_head hne]
  have hhmem := List.head_mem hne
  have hpw : List.Pairwise (· < ·) F := by
    rw [hFdef]; exact pairwise_filter_range _ _
  obtain ⟨hd_lt, hd_p⟩ :=
    (mem_filter_range s.length (fun i => s.getD i 0 == x) (F.head hne)).mp hhmem
  have hle : F.head hne ≤ List.indexOf x s :=
    head_le_of_pairwise_lt F hpw hne _ hmem
  have hnlt : ¬ F.head hne < List.indexOf x s :=
    fun hcon => h2 _ hcon (by simpa only [beq_iff_eq] using hd_p)
  have heq : F.head hne = List.indexOf x s := by omega
  rw [heq, specFirstPos]

/-- The last position `np.where` finds is the index of last occurrence. -/
theorem filter_range_getLast (s : List ℚ) (x : ℚ) (hx : x ∈ s) :
    ((List.range s.length).filter (fun i => s.getD i 0 == x)).getLast? =
      some (specLastPos s x) := by
  obtain ⟨hL1, hL2, hL3⟩ := specLastPos_charac s x hx
  set F := (List.range s.length).filter (fun i => s.getD i 0 == x) with hFdef
  have hmem : specLastPos s x ∈ F := by
    rw [hFdef]
    exact (mem_filter_range _ _ _).mpr ⟨hL1, by simp only [beq_iff_eq]; exact hL2⟩
  have hne := List.ne_nil_of_mem hmem
  rw [List.getLast?_eq_getLast _ hne]
  have hlmem := List.getLast_mem hne
  have hpw : List.Pairwise (· < ·) F := by
    rw [hFdef]; exact pairwise_filter_range _ _
  obtain ⟨hd_lt, hd_p⟩ :=
    (mem_filter_range s.length (fun i => s.getD i 0 == x) (F.getLast hne)).mp hlmem
  have hge : specLastPos s x ≤ F.getLast hne :=
    le_getLast_of_pairwise_lt F hpw hne _ hmem
  have hle : F.getLast hne ≤ specLastPos s x :=
    hL3 _ hd_lt (by simpa only [beq_iff_eq] using hd_p)
  have heq : F.getLast hne = specLastPos s x := le_antisymm hle hge
  rw [heq]

/-- C8: For every input sequence of length `n ≤ 1` and both tie-break
modes, `percentrank_inc` returns `0.0` for every element. -/
theorem percentrank_inc_short (values : List PyFloat) (use_first : Bool)
    (h : values.length ≤ 1) :
    percentrank_inc values use_first = values.map (fun _ => 0) := by
  simp [percentrank_inc, length_npSort, h]

/-- Witness for C8 at the one-element input `[3.0]`. -/
theorem percentrank_inc_short_witness :
    percentrank_inc [PyFloat.val 3] false = [PyFloat.val 3].map (fun _ => 0) :=
  percentrank_inc_short [PyFloat.val 3] false (by decide)

theorem rankOfVal_nil (s : List PyFloat) (u : Bool) (x : PyFloat)
    (h : whereIdxs s x = []) : rankOfVal s u x = 1 / 2 := by
  unfold rankOfVal
  rw [h]

theorem rankOfVal_cons (s : List PyFloat) (u : Bool) (x : PyFloat) (i : ℕ) (rest : List ℕ)
    (h : whereIdxs s x = i :: rest) :
    rankOfVal s u x =
      (((if u then i else (i :: rest).getLast (List.cons_ne_nil i rest)) : ℕ) : ℚ)
        / ((s.length : ℚ) - 1) := by
  unfold rankOfVal
  rw [h]

/-- C1: `percentrank_inc` follows §4.2's stated algorithm.  For every
finite-valued sequence with `n ≥ 2` and either tie-break, `output[i]` is
the position of `values[i]` in the ascending-sorted sequence — the first
matching 0-indexed position under FIRST (`use_first = true`), the last
under LAST — divided by `n - 1`; and on the tied two-element sequence
`[5, 5]`, LAST gives rank `1.0` for both elements while FIRST gives `0.0`
for both. -/
theorem percentrank_inc_follows_spec :
    (∀ (l : List ℚ) (use_first : Bool), 2 ≤ l.length →
        percentrank_inc (l.map PyFloat.val) use_first = specPercentileRank l use_first)
    ∧ percentrank_inc [PyFloat.val 5, PyFloat.val 5] false = [1, 1]
    ∧ percentrank_inc [PyFloat.val 5, PyFloat.val 5] true = [0, 0] := by
  refine ⟨?_, by decide, by decide⟩
  intro l use_first hn
  have hsl : (sortQ l).length = l.length := length_sortQ l
  unfold percentrank_inc
  rw [npSort_map_val, List.length_map, hsl, if_neg (by omega)]
  unfold specPercentileRank
  rw [List.map_map]
  apply List.map_congr_left
  intro x hx
  simp only [Function.comp_apply]
  have hx' : x ∈ sortQ l := (mem_sortQ l x).mpr hx
  have hwhere : whereIdxs ((sortQ l).map PyFloat.val) (PyFloat.val x)
      = (List.range (sortQ l).length).filter (fun i => (sortQ l).getD i 0 == x) := by
    unfold whereIdxs
    rw [List.length_map]
    apply List.filter_congr
    intro i hi
    have hi' : i < (sortQ l).length := List.mem_range.mp hi
    have hi2 : i < ((sortQ l).map PyFloat.val).length := by
      rw [List.length_map]; exact hi'
    rw [List.getD_eq_getElem _ _ hi2, List.getElem_map, List.getD_eq_getElem _ _ hi']
    rfl
  have hh := filter_range_head (sortQ l) x hx'
  have hl := filter_range_getLast (sortQ l) x hx'
  cases hF : (List.range (sortQ l).length).filter (fun i => (sortQ l).getD i 0 == x) with
  | nil =>
    rw [hF] at hh
    simp at hh
  | cons i rest =>
    rw [hF] at hh hl
    rw [rankOfVal_cons _ _ _ i rest (hwhere.trans hF), List.length_map, hsl]
    have hi_eq : i = specFirstPos (sortQ l) x := by simpa using hh
    have hlast_eq : (i :: rest).getLast (List.cons_ne_nil i rest)
        = specLastPos (sortQ l) x := by
      rw [List.getLast?_eq_getLast _ (List.cons_ne_nil i rest)] at hl
      simpa using hl
    cases use_first
    · simp [hlast_eq]
    · simp [hi_eq]

/-- Witness for C1 on the distinct-valued sequence `[1, 2]`. -/
theorem percentrank_inc_follows_spec_witness :
    percentrank_inc [PyFloat.val 1, PyFloat.val 2] false
      = specPercentileRank [1, 2] false :=
  percentrank_inc_follows_spec.1 [1, 2] false (by decide)

theorem percentrank_inc_getD (values : List PyFloat) (u : Bool) (j : ℕ)
    (hj : j < values.length) :
    (percentrank_inc values u).getD j 0 =
      if values.length ≤ 1 then 0
      else rankOfVal (npSort values) u (values.getD j PyFloat.nan) := by
  unfold percentrank_inc
  rw [length_npSort]
  by_cases h : values.length ≤ 1
  · rw [if_pos h, if_pos h,
      List.getD_eq_getElem _ _ (by simpa using hj), List.getElem_map]
  · rw [if_neg h, if_neg h,
      List.getD_eq_getElem _ _ (by simpa using hj), List.getElem_map,
      List.getD_eq_getElem _ _ hj]

/-- C5: `percentrank_inc` is permutation-equivariant.  Permuting the input
so the entry at `σ i` of the permuted sequence is the entry at `i` of the
original, the output at `σ i` for the permuted input equals the output at
`i` for the original, for either tie-break. -/
theorem percentrank_inc_perm_equivariant (l : List ℚ) (σ : Equiv.Perm (Fin l.length))
    (use_first : Bool) (i : Fin l.length) :
    (percentrank_inc ((List.ofFn (fun k => l.get (σ.symm k))).map PyFloat.val) use_first).getD
        (σ i) 0
      = (percentrank_inc (l.map PyFloat.val) use_first).getD i 0 := by
  set l' := List.ofFn (fun k => l.get (σ.symm k)) with hl'
  have hperm : l'.Perm l := by
    rw [hl']
    have h := Equiv.Perm.ofFn_comp_perm σ.symm l.get
    rwa [List.ofFn_get] at h
  have hlen : l'.length = l.length := hperm.length_eq
  have hsort : npSort (l'.map PyFloat.val) = npSort (l.map PyFloat.val) := by
    apply List.eq_of_perm_of_sorted (r := pyLe)
    · exact (List.perm_insertionSort pyLe _).trans
        ((hperm.map PyFloat.val).trans (List.perm_insertionSort pyLe _).symm)
    · exact List.sorted_insertionSort pyLe _
    · exact List.sorted_insertionSort pyLe _
  have hσi : (σ i : ℕ) < (l'.map PyFloat.val).length := by
    rw [List.length_map, hlen]; exact (σ i).isLt
  have hi : (i : ℕ) < (l.map PyFloat.val).length := by
    rw [List.length_map]; exact i.isLt
  rw [percentrank_inc_getD _ _ _ hσi, percentrank_inc_getD _ _ _ hi]
  simp only [List.length_map, hlen, hsort]
  by_cases h : l.length ≤ 1
  · rw [if_pos h, if_pos h]
  · rw [if_neg h, if_neg h]
    congr 1
    rw [List.getD_eq_getElem _ _ hσi, List.getD_eq_getElem _ _ hi,
        List.getElem_map, List.getElem_map]
    congr 1
    simp [hl', List.getElem_ofFn, List.get_eq_getElem]

/-- C6: `parse_percent_str` returns `0.0` for every missing input, for
every input that is empty after stripping `%` and whitespace, and for every
non-empty unparseable input; successfully parsed text yields the literal
numeric value written, e.g. `"2.90%"` yields `2.90` (not `0.029`), and
`""` yields `0.0`. -/
theorem parse_percent_str_spec :
    parse_percent_str none = 0
    ∧ (∀ s : String, removeAll (pyStrip s) '%' = "" → parse_percent_str (some s) = 0)
    ∧ (∀ s : String, parseFloat? (removeAll (pyStrip s) '%') = none →
        parse_percent_str (some s) = 0)
    ∧ (∀ (s : String) (q : ℚ), parseFloat? (removeAll (pyStrip s) '%') = some q →
        parse_percent_str (some s) = q)
    ∧ parse_percent_str (some "2.90%") = 29 / 10
    ∧ parse_percent_str (some "") = 0 := by
  refine ⟨rfl, ?_, ?_, ?_, by decide, by decide⟩
  · intro s h
    simp [parse_percent_str, h]
  · intro s h
    unfold parse_percent_str
    by_cases he : removeAll (pyStrip s) '%' = ""
    · simp [he]
    · simp [he, h]
  · intro s q h
    unfold parse_percent_str
    by_cases he : removeAll (pyStrip s) '%' = ""
    · rw [he] at h
      have hnone : parseFloat? "" = none := by decide
      rw [hnone] at h
      simp at h
    · simp [he, h]

/-- Witness for C6 at the inputs `"50%"` (parsed) and `"abc"`
(unparseable). -/
theorem parse_percent_str_spec_witness :
    parse_percent_str (some "50%") = 50 ∧ parse_percent_str (some "abc") = 0 :=
  ⟨parse_percent_str_spec.2.2.2.1 "50%" 50 (by decide),
   parse_percent_str_spec.2.2.1 "abc" (by decide)⟩

/-- C7: `parse_salary` strips the currency symbol and thousands separators
and parses the remainder as a float, returning the missing sentinel NaN
(not zero) for empty, missing, or unparseable input; in particular
`"$10,000.00"` gives `10000.0`, while `""` and `"abc"` give NaN. -/
theorem parse_salary_spec :
    parse_salary (some "$10,000.00") = .val 10000
    ∧ parse_salary (some "") = .nan
    ∧ parse_salary (some "abc") = .nan
    ∧ parse_salary none = .nan
    ∧ (∀ s : String,
        parseFloat? (removeAll (removeAll (pyStrip s) '$') ',') = none →
        parse_salary (some s) = .nan)
    ∧ (∀ (s : String) (q : ℚ),
        parseFloat? (removeAll (removeAll (pyStrip s) '$') ',') = some q →
        parse_salary (some s) = .val q) := by
  refine ⟨by decide, by decide,
    by decide, rfl, ?_, ?_⟩
  · intro s h
    simp [parse_salary, h]
  · intro s q h
    simp [parse_salary, h]

/-- Witness for C7 at the inputs `"$5,600 "` (parsed) and `"x"`
(unparseable). -/
theorem parse_salary_spec_witness :
    parse_salary (some "$5,600 ") = .val 5600 ∧ parse_salary (some "x") = .nan :=
  ⟨parse_salary_spec.2.2.2.2.2 "$5,600 " 5600 (by decide),
   parse_salary_spec.2.2.2.2.1 "x" (by decide)⟩

theorem length_percentrank_inc (values : List PyFloat) (u : Bool) :
    (percentrank_inc values u).length = values.length := by
  unfold percentrank_inc
  split <;> simp

theorem getD_map_lt {α β : Type} (f : α → β) (l : List α) (i : ℕ)
    (h : i < l.length) (d : α) (e : β) :
    (l.map f).getD i e = f (l.getD i d) := by
  rw [List.getD_eq_getElem _ _ (by simpa using h), List.getElem_map,
      List.getD_eq_getElem _ _ h]

theorem getD_zipWith_lt {α β γ : Type} (f : α → β → γ) (a : List α) (b : List β)
    (i : ℕ) (ha : i < a.length) (hb : i < b.length) (da : α) (db : β) (dc : γ) :
    (List.zipWith f a b).getD i dc = f (a.getD i da) (b.getD i db) := by
  rw [List.getD_eq_getElem _ _ (by rw [List.length_zipWith]; omega),
      List.getElem_zipWith, List.getD_eq_getElem _ _ ha, List.getD_eq_getElem _ _ hb]

/-- C2: end-to-end on two rows with ceilings `[10, 20]` and large-field
ownership percent strings both `"50%"`: ownership fraction `0.50` for
both rows, leverage scores `5.0` and `10.0`, formatted ceiling percent
ranks `"0.00%"` and `"100.00%"` (LAST tie-break), formatted ownership
percent ranks `"0%"` for both rows (FIRST tie-break on the tie), and
formatted leverage deltas `"0.0%"` and `"100.0%"`. -/
theorem transform_two_row_end_to_end :
    ((transformE twoRowTable).toOption.map (fun o =>
        (o.OWN_FRAC, o.LEVERAGE_SCORE, o.CEILING_PCT_RANK, o.OWNERSHIP_PCT_RANK,
          o.leverage_delta)))
      = some ([1 / 2, 1 / 2], [.val 5, .val 10], ["0.00%", "100.00%"], ["0%", "0%"],
          ["0.0%", "100.0%"]) := by
  decide

/-- C3 counterexample: with projection `5.0` and parsed salary `0.0`, the
raw value-per-1000 is `+inf` (not NaN), `pd.notna` keeps it, and the
formatted cell is `"$inf"`, not the empty string the claim requires for a
zero salary. -/
theorem value_per_1k_zero_salary_not_empty :
    VALUE_PER_1k_raw [.val 5] [.val 0] = [.inf]
    ∧ VALUE_PER_1k (VALUE_PER_1k_raw [.val 5] [.val 0]) = ["$inf"]
    ∧ VALUE_PER_1k (VALUE_PER_1k_raw [.val 5] [.val 0]) ≠ [""] := by
  decide

/-- C3 amended: for every row, `valuePer1000 = projection / (salary / 1000)`
under float semantics.  A missing (NaN) salary makes it NaN and its
formatted string empty.  A zero salary makes it NaN (and the string empty)
only when the projection is NaN or zero; a nonzero finite projection over
a zero salary gives `±inf`, formatted `"$inf"` / `"$-inf"`. -/
theorem value_per_1k_spec :
    (∀ (proj salary : List PyFloat) (i : ℕ), i < proj.length → i < salary.length →
        (VALUE_PER_1k_raw proj salary).getD i .nan
          = pyDiv (proj.getD i .nan) (pyDiv (salary.getD i .nan) (.val 1000)))
    ∧ (∀ (proj salary : List PyFloat) (i : ℕ), i < proj.length → i < salary.length →
        salary.getD i .nan = .nan →
        (VALUE_PER_1k_raw proj salary).getD i .nan = .nan
          ∧ (VALUE_PER_1k (VALUE_PER_1k_raw proj salary)).getD i "" = "")
    ∧ (∀ (proj salary : List PyFloat) (i : ℕ), i < proj.length → i < salary.length →
        salary.getD i .nan = .val 0 →
        ((proj.getD i .nan = .nan ∨ proj.getD i .nan = .val 0 →
            (VALUE_PER_1k_raw proj salary).getD i .nan = .nan
              ∧ (VALUE_PER_1k (VALUE_PER_1k_raw proj salary)).getD i "" = "")
          ∧ ∀ a : ℚ, proj.getD i .nan = .val a → a ≠ 0 →
              (VALUE_PER_1k (VALUE_PER_1k_raw proj salary)).getD i ""
                = if 0 < a then "$inf" else "$-inf")) := by
  have hraw : ∀ (proj salary : List PyFloat) (i : ℕ), i < proj.length → i < salary.length →
      (VALUE_PER_1k_raw proj salary).getD i .nan
        = pyDiv (proj.getD i .nan) (pyDiv (salary.getD i .nan) (.val 1000)) := by
    intro proj salary i hp hs
    unfold VALUE_PER_1k_raw
    exact getD_zipWith_lt _ _ _ i hp hs PyFloat.nan PyFloat.nan PyFloat.nan
  have hlenraw : ∀ (proj salary : List PyFloat) (i : ℕ), i < proj.length → i < salary.length →
      i < (VALUE_PER_1k_raw proj salary).length := by
    intro proj salary i hp hs
    unfold VALUE_PER_1k_raw
    rw [List.length_zipWith]
    omega
  have hfmt : ∀ (proj salary : List PyFloat) (i : ℕ) (hp : i < proj.length)
      (hs : i < salary.length),
      (VALUE_PER_1k (VALUE_PER_1k_raw proj salary)).getD i ""
        = (if notna ((VALUE_PER_1k_raw proj salary).getD i .nan) then
            "$" ++ pyFmtFixed 2 ((VALUE_PER_1k_raw proj salary).getD i .nan) else "") := by
    intro proj salary i hp hs
    unfold VALUE_PER_1k
    exact getD_map_lt _ _ i (hlenraw proj salary i hp hs) .nan ""
  refine ⟨hraw, ?_, ?_⟩
  · intro proj salary i hp hs hnan
    have h1 := hraw proj salary i hp hs
    rw [hnan] at h1
    have h2 : (VALUE_PER_1k_raw proj salary).getD i .nan = .nan := by
      rw [h1]
      cases proj.getD i .nan <;> rfl
    refine ⟨h2, ?_⟩
    rw [hfmt proj salary i hp hs, h2]
    rfl
  · intro proj salary i hp hs hzero
    have h1 := hraw proj salary i hp hs
    rw [hzero] at h1
    constructor
    · intro hcase
      have h2 : (VALUE_PER_1k_raw proj salary).getD i .nan = .nan := by
        rw [h1]
        rcases hcase with h | h <;> rw [h] <;> rfl
      refine ⟨h2, ?_⟩
      rw [hfmt proj salary i hp hs, h2]
      rfl
    · intro a ha hane
      have h2 : (VALUE_PER_1k_raw proj salary).getD i .nan
          = if 0 < a then .inf else .ninf := by
        rw [h1, ha]
        show pyDiv (.val a) (pyDiv (.val 0) (.val 1000)) = _
        have : pyDiv (.val 0) (.val 1000) = .val 0 := by decide
        rw [this]
        show (if (0:ℚ) = 0 then (if (a:ℚ) = 0 then PyFloat.nan else if 0 < a then .inf else .ninf)
              else .val (a / 0)) = _
        rw [if_pos rfl, if_neg hane]
      rw [hfmt proj salary i hp hs, h2]
      by_cases hpos : 0 < a
      · rw [if_pos hpos, if_pos hpos]
        rfl
      · rw [if_neg hpos, if_neg hpos]
        rfl

/-- Witness for C3's amended theorem: row 0 with salary cell missing, and
row 0 with salary 0 against projection 7. -/
theorem value_per_1k_spec_witness :
    ((VALUE_PER_1k_raw [PyFloat.val 7] [PyFloat.nan]).getD 0 .nan = .nan
      ∧ (VALUE_PER_1k (VALUE_PER_1k_raw [PyFloat.val 7] [PyFloat.nan])).getD 0 "" = "")
    ∧ (VALUE_PER_1k (VALUE_PER_1k_raw [PyFloat.val 7] [PyFloat.val 0])).getD 0 ""
        = if (0:ℚ) < 7 then "$inf" else "$-inf" :=
  ⟨value_per_1k_spec.2.1 [PyFloat.val 7] [PyFloat.nan] 0 (by decide) (by decide) (by decide),
   ((value_per_1k_spec.2.2 [PyFloat.val 7] [PyFloat.val 0] 0 (by decide) (by decide)
      (by decide)).2 7 (by decide) (by decide))⟩

/-- C4: for every row, `leverage_delta_raw` equals the already-rounded
`CEILING_PCT_RANK` (rank times 100 rounded to 2 decimals) minus the
already-rounded `OWNERSHIP_PCT_RANK` (rank times 100 rounded to 0
decimals) — and this is not the difference of the unrounded ranks, which
it disagrees with e.g. when both ranks are `1/3`. -/
theorem leverage_delta_from_rounded_ranks :
    (∀ (ceiling : List PyFloat) (pct : List ℚ) (i : ℕ),
        i < ceiling.length → i < pct.length →
        (leverage_delta_raw (CEILING_PCT_RANK ceiling) (OWNERSHIP_PCT_RANK pct)).getD i 0
          = npRound 2 ((percentrank_inc ceiling false).getD i 0 * 100)
            - npRound 0 ((percentrank_inc (pct.map PyFloat.val) true).getD i 0 * 100))
    ∧ npRound 2 ((1 / 3 : ℚ) * 100) - npRound 0 ((1 / 3 : ℚ) * 100)
        ≠ (1 / 3 : ℚ) * 100 - (1 / 3 : ℚ) * 100 := by
  constructor
  · intro ceiling pct i hic hip
    have hc : i < (percentrank_inc ceiling false).length := by
      rw [length_percentrank_inc]; exact hic
    have ho : i < (percentrank_inc (pct.map PyFloat.val) true).length := by
      rw [length_percentrank_inc, List.length_map]; exact hip
    have hcl : i < (CEILING_PCT_RANK ceiling).length := by
      unfold CEILING_PCT_RANK
      rw [List.length_map]; exact hc
    have hol : i < (OWNERSHIP_PCT_RANK pct).length := by
      unfold OWNERSHIP_PCT_RANK
      rw [List.length_map]; exact ho
    unfold leverage_delta_raw
    rw [getD_zipWith_lt _ _ _ i hcl hol 0 0 0]
    unfold CEILING_PCT_RANK OWNERSHIP_PCT_RANK
    rw [getD_map_lt _ _ i hc 0 0, getD_map_lt _ _ i ho 0 0]
  · decide

/-- Witness for C4 at ceilings `[1, 2]` and ownership percents `[0, 0]`,
row 0. -/
theorem leverage_delta_from_rounded_ranks_witness :
    (leverage_delta_raw (CEILING_PCT_RANK [PyFloat.val 1, PyFloat.val 2])
        (OWNERSHIP_PCT_RANK [0, 0])).getD 0 0
      = npRound 2 ((percentrank_inc [PyFloat.val 1, PyFloat.val 2] false).getD 0 0 * 100)
        - npRound 0 ((percentrank_inc ([0, 0].map PyFloat.val) true).getD 0 0 * 100) :=
  leverage_delta_from_rounded_ranks.1 [PyFloat.val 1, PyFloat.val 2] [0, 0] 0
    (by decide) (by decide)

/-- C9 counterexample: §6 lists the small-field ownership column among the
required input columns, but the code only mentions it in the rename map
(pandas `rename` ignores missing labels) and never reads it: on a table
missing exactly `Small Field`, the transform succeeds and produces
output. -/
theorem transform_missing_small_field_succeeds :
    noSmallFieldTable.«Small Field» = none
    ∧ (transformE noSmallFieldTable).toOption.isSome = true := by
  decide

theorem getCol_bind_ok {α β : Type} (c : Option α) (nm : String)
    (k : α → Except String β) (o : β)
    (h : (getCol c nm >>= k) = .ok o) : ∃ v, c = some v ∧ k v = .ok o := by
  cases c with
  | none => simp [getCol, Bind.bind, Except.bind] at h
  | some v =>
    refine ⟨v, rfl, ?_⟩
    simpa [getCol, Bind.bind, Except.bind] using h

/-- C9 amended: absence of a column the transform actually reads — every
§6 column except small-field ownership — is fatal: an output table is
produced only when all eleven accessed columns are present, and a failing
run returns an error value and no output (no partial output exists in an
`Except.error`). -/
theorem transform_requires_accessed_columns :
    (∀ (t : RawTable) (o : OutTable), transformE t = .ok o →
        t.«DK Salary».isSome ∧ t.«Large Field».isSome ∧ t.«DK Ceiling».isSome
        ∧ t.«DK Proj».isSome ∧ t.«Player».isSome ∧ t.«DK Pos».isSome
        ∧ t.«Team».isSome ∧ t.«Opp».isSome ∧ t.«DK Value».isSome
        ∧ t.«DK Floor».isSome ∧ t.«id».isSome)
    ∧ (∀ t : RawTable, (¬ ∃ o, transformE t = .ok o) → ∃ e, transformE t = .error e) := by
  constructor
  · intro t o h
    unfold transformE at h
    obtain ⟨v1, h1, h⟩ := getCol_bind_ok _ _ _ _ h
    obtain ⟨v2, h2, h⟩ := getCol_bind_ok _ _ _ _ h
    obtain ⟨v3, h3, h⟩ := getCol_bind_ok _ _ _ _ h
    obtain ⟨v4, h4, h⟩ := getCol_bind_ok _ _ _ _ h
    obtain ⟨v5, h5, h⟩ := getCol_bind_ok _ _ _ _ h
    obtain ⟨v6, h6, h⟩ := getCol_bind_ok _ _ _ _ h
    obtain ⟨v7, h7, h⟩ := getCol_bind_ok _ _ _ _ h
    obtain ⟨v8, h8, h⟩ := getCol_bind_ok _ _ _ _ h
    obtain ⟨v9, h9, h⟩ := getCol_bind_ok _ _ _ _ h
    obtain ⟨v10, h10, h⟩ := getCol_bind_ok _ _ _ _ h
    obtain ⟨v11, h11, h⟩ := getCol_bind_ok _ _ _ _ h
    simp [h1, h2, h3, h4, h5, h6, h7, h8, h9, h10, h11]
  · intro t h
    cases he : transformE t with
    | ok o => exact absurd ⟨o, he⟩ h
    | error e => exact ⟨e, rfl⟩

/-- Witness for C9's amended theorem: the full `twoRowTable` has its
`DK Salary` column present, and the same table with `DK Salary` removed
makes the transform return an error. -/
theorem transform_requires_accessed_columns_witness :
    twoRowTable.«DK Salary».isSome ∧ ∃ e, transformE noSalaryTable = .error e := by
  constructor
  · have hex : ∃ o, transformE twoRowTable = .ok o := by
      cases he : transformE twoRowTable with
      | ok o => exact ⟨o, rfl⟩
      | error e =>
        have hs : (transformE twoRowTable).toOption.isSome = true := by decide
        rw [he] at hs
        simp [Except.toOption] at hs
    obtain ⟨o, ho⟩ := hex
    exact (transform_requires_accessed_columns.1 twoRowTable o ho).1
  · refine transform_requires_accessed_columns.2 noSalaryTable ?_
    intro hex
    obtain ⟨o, ho⟩ := hex
    have hfail : (transformE noSalaryTable).toOption.isSome = false := by decide
    rw [ho] at hfail
    simp [Except.toOption] at hfail

theorem pyEq_nan_right (y : PyFloat) : pyEq y .nan = false := by
  cases y <;> rfl

theorem whereIdxs_nan (s : List PyFloat) : whereIdxs s .nan = [] := by
  unfold whereIdxs
  simp [pyEq_nan_right]

/-- C10 (implicit): a missing (NaN) element never compares equal to any
element of the sorted sequence, so in every sequence with `n ≥ 2` a NaN at
index `i` receives the `not found` fallback rank `0.5`; through the public
pipeline a row whose ceiling cell is missing is therefore ranked at the
50th percentile (`CEILING_PCT_RANK` `50`) rather than propagating
missing. -/
theorem percentrank_inc_nan_fallback :
    (∀ (values : List PyFloat) (use_first : Bool) (i : ℕ),
        i < values.length → 2 ≤ values.length → values.getD i .nan = .nan →
        (percentrank_inc values use_first).getD i 0 = 1 / 2)
    ∧ CEILING_PCT_RANK [.nan, .val 10, .val 20] = [50, 0, 50] := by
  constructor
  · intro values u i hi hn hnan
    rw [percentrank_inc_getD _ _ _ hi, if_neg (by omega), hnan]
    exact rankOfVal_nil _ _ _ (whereIdxs_nan _)
  · decide

/-- Witness for C10 at the sequence `[NaN, 1.0]`, index 0. -/
theorem percentrank_inc_nan_fallback_witness :
    (percentrank_inc [PyFloat.nan, PyFloat.val 1] false).getD 0 0 = 1 / 2 :=
  percentrank_inc_nan_fallback.1 [PyFloat.nan, PyFloat.val 1] false 0
    (by decide) (by decide) (by decide)
